import Mathlib

/-!
Verification of the B5W6 intelligent-complaint-analysis RAG pipeline.

Strings are modelled as `List Char`.  Python's text primitives
(`re.sub(r"\s+", " ", ·)`, `str.strip`, `str.lower`, substring tests,
slicing) are embedded as executable Lean functions, and each pipeline
component (`ComplaintChunkProcessor`, `MinimalTextPreprocessor`,
`TextChunker` / `RecursiveCharacterTextSplitter`, `VectorStoreBuilder`,
`QuestionRetriever`, `PromptEngineer`, `AnswerGenerator`, the
interactive runner's final-answer selection) is translated into a
definition over those primitives.
-/

namespace ComplaintRag

/-! ## Python text primitives -/

/-- ASCII whitespace recognised by Python's `\s` and `str.strip`:
space, tab, newline, carriage return, vertical tab, form feed. -/
def pyWs (c : Char) : Bool :=
  c.toNat = 32 || c.toNat = 9 || c.toNat = 10 || c.toNat = 13 ||
    c.toNat = 11 || c.toNat = 12

/-- Is the first character whitespace? (`False` for the empty string.) -/
def headIsWs : List Char → Bool
  | [] => false
  | c :: _ => pyWs c

/-- `re.sub(r"\s+", " ", text)`: each maximal whitespace run becomes one
space (a whitespace character followed by more whitespace is dropped, the
last character of a run becomes `' '`). -/
def collapseWs : List Char → List Char
  | [] => []
  | c :: rest =>
    if pyWs c then
      if headIsWs rest then collapseWs rest
      else ' ' :: collapseWs rest
    else c :: collapseWs rest

/-- Left part of Python `str.strip`. -/
def pyStripLeft (l : List Char) : List Char := l.dropWhile pyWs

/-- Right part of Python `str.strip`. -/
def pyStripRight (l : List Char) : List Char := (l.reverse.dropWhile pyWs).reverse

/-- Python `str.strip`: drop leading and trailing whitespace. -/
def pyStrip (l : List Char) : List Char := pyStripRight (pyStripLeft l)

/-- Python `str.lower` restricted to the ASCII range (the only characters the
cleaning regexes leave and that the counterexamples use). -/
def pyLower (l : List Char) : List Char := l.map Char.toLower

/-! ## TextNormalizers (C5)

`MinimalTextPreprocessor.clean_text` (src/src/chunking/text_cleaner.py):
`re.sub(r"\s+", " ", text)`, then `.strip().lower()`.

`ComplaintChunkProcessor.clean_text` (src/src/data_loader.py):
`re.sub(r"\s+", " ", str(text)).strip()`, then
`re.sub(r'[^A-Za-z0-9.,!?\'" ]+', "", text)`, then `.lower()`. -/

/-- `MinimalTextPreprocessor.clean_text` on a string input. -/
def minimalCleanText (x : List Char) : List Char :=
  pyLower (pyStrip (collapseWs x))

/-- The character class `[A-Za-z0-9.,!?'" ]` kept by
`ComplaintChunkProcessor.clean_text`'s second regex. -/
def allowedChar (c : Char) : Bool :=
  (65 ≤ c.toNat && c.toNat ≤ 90) || (97 ≤ c.toNat && c.toNat ≤ 122) ||
    (48 ≤ c.toNat && c.toNat ≤ 57) || c.toNat = 46 || c.toNat = 44 ||
    c.toNat = 33 || c.toNat = 63 || c.toNat = 39 || c.toNat = 34 || c.toNat = 32

/-- `ComplaintChunkProcessor.clean_text` on a string input. -/
def complaintCleanText (x : List Char) : List Char :=
  pyLower ((pyStrip (collapseWs x)).filter allowedChar)


/-! ## Whitespace-structure lemmas used for idempotence (C5) -/

/-- Every whitespace character is a single space not followed by whitespace. -/
def collapsedB : List Char → Bool
  | [] => true
  | c :: rest => (if pyWs c then c == ' ' && !headIsWs rest else true) && collapsedB rest

theorem headIsWs_dropWhile (l : List Char) : headIsWs (l.dropWhile pyWs) = false := by
  induction l with
  | nil => simp [List.dropWhile, headIsWs]
  | cons c rest ih =>
    cases h : pyWs c with
    | true => simpa [List.dropWhile_cons, h] using ih
    | false => simp [List.dropWhile_cons, h, headIsWs]

theorem dropWhile_eq_self_of_headIsWs (l : List Char) (h : headIsWs l = false) :
    l.dropWhile pyWs = l := by
  cases l with
  | nil => simp [List.dropWhile]
  | cons c rest =>
    simp only [headIsWs] at h
    simp [List.dropWhile, h]

theorem headIsWs_collapseWs (l : List Char) : headIsWs (collapseWs l) = headIsWs l := by
  induction l with
  | nil => simp [collapseWs]
  | cons c rest ih =>
    rw [collapseWs]
    by_cases h : pyWs c
    · by_cases hr : headIsWs rest
      · rw [if_pos h, if_pos hr, ih, hr]
        simp [headIsWs, h]
      · rw [if_pos h, if_neg hr]
        simp [headIsWs, h]
        decide
    · simp [h, headIsWs]

theorem collapsedB_collapseWs (l : List Char) : collapsedB (collapseWs l) = true := by
  induction l with
  | nil => simp [collapseWs, collapsedB]
  | cons c rest ih =>
    rw [collapseWs]
    by_cases h : pyWs c
    · by_cases hr : headIsWs rest
      · rw [if_pos h, if_pos hr]
        exact ih
      · rw [if_pos h, if_neg hr, collapsedB, headIsWs_collapseWs]
        have hr' : headIsWs rest = false := by
          simpa using hr
        simp [ih, hr', (by decide : pyWs ' ' = true)]
    · rw [if_neg h, collapsedB]
      simp [h, ih]

theorem collapseWs_of_collapsedB (l : List Char) (h : collapsedB l = true) :
    collapseWs l = l := by
  induction l with
  | nil => simp [collapseWs]
  | cons c rest ih =>
    rw [collapsedB] at h
    rw [collapseWs]
    by_cases hc : pyWs c
    · rw [if_pos hc] at h ⊢
      simp only [Bool.and_eq_true, beq_iff_eq, Bool.not_eq_true'] at h
      obtain ⟨⟨hsp, hrest⟩, hcol⟩ := h
      rw [if_neg (by rw [hrest]; exact Bool.false_ne_true), ih hcol, hsp]
    · rw [if_neg hc] at h ⊢
      simp only [Bool.true_and] at h
      rw [ih h]

theorem collapsedB_tail (c : Char) (rest : List Char) (h : collapsedB (c :: rest) = true) :
    collapsedB rest = true := by
  rw [collapsedB] at h
  simp only [Bool.and_eq_true] at h
  exact h.2

theorem collapsedB_dropWhile (l : List Char) (h : collapsedB l = true) :
    collapsedB (l.dropWhile pyWs) = true := by
  induction l with
  | nil => simp [List.dropWhile, collapsedB]
  | cons c rest ih =>
    simp only [List.dropWhile]
    by_cases hc : pyWs c
    · simp only [hc, if_true]
      exact ih (collapsedB_tail c rest h)
    · simp only [hc, if_false]
      exact h

theorem collapsedB_append_left (l m : List Char) (h : collapsedB (l ++ m) = true) :
    collapsedB l = true := by
  induction l with
  | nil => simp [collapsedB]
  | cons c rest ih =>
    rw [List.cons_append, collapsedB] at h
    simp only [Bool.and_eq_true] at h
    rw [collapsedB]
    simp only [Bool.and_eq_true]
    refine ⟨?_, ih h.2⟩
    by_cases hc : pyWs c
    · rw [if_pos hc] at h ⊢
      have h1 := h.1
      simp only [Bool.and_eq_true, beq_iff_eq, Bool.not_eq_true'] at h1
      cases rest with
      | nil => simp [headIsWs, h1.1]
      | cons d rest2 =>
        have h2 : headIsWs (d :: rest2 ++ m) = headIsWs (d :: rest2) := rfl
        rw [h2] at h1
        simp [h1.1, h1.2]
    · simp [hc]

theorem stripRight_decomp (l : List Char) :
    l = pyStripRight l ++ (l.reverse.takeWhile pyWs).reverse := by
  conv_lhs => rw [← l.reverse_reverse, ← List.takeWhile_append_dropWhile (p := pyWs) (l := l.reverse)]
  rw [List.reverse_append]
  rfl

theorem collapsedB_stripRight (l : List Char) (h : collapsedB l = true) :
    collapsedB (pyStripRight l) = true := by
  have hd := stripRight_decomp l
  rw [hd] at h
  exact collapsedB_append_left _ _ h

theorem headIsWs_append_of_ne_nil (l m : List Char) (h : l ≠ []) :
    headIsWs (l ++ m) = headIsWs l := by
  cases l with
  | nil => exact absurd rfl h
  | cons c rest => rfl

theorem headIsWs_stripRight (l : List Char) (h : headIsWs l = false) :
    headIsWs (pyStripRight l) = false := by
  by_cases hn : pyStripRight l = []
  · rw [hn]; rfl
  · have hd := stripRight_decomp l
    rw [hd, headIsWs_append_of_ne_nil _ _ hn] at h
    exact h

theorem reverse_stripRight (l : List Char) :
    (pyStripRight l).reverse = l.reverse.dropWhile pyWs := by
  rw [pyStripRight, List.reverse_reverse]

theorem stripRight_eq_self (l : List Char) (h : headIsWs l.reverse = false) :
    pyStripRight l = l := by
  rw [pyStripRight, dropWhile_eq_self_of_headIsWs _ h, List.reverse_reverse]

theorem strip_eq_self (l : List Char) (h1 : headIsWs l = false)
    (h2 : headIsWs l.reverse = false) : pyStrip l = l := by
  rw [pyStrip, pyStripLeft, dropWhile_eq_self_of_headIsWs _ h1, stripRight_eq_self _ h2]

theorem headIsWs_pyStrip (l : List Char) : headIsWs (pyStrip l) = false := by
  rw [pyStrip, pyStripLeft]
  exact headIsWs_stripRight _ (headIsWs_dropWhile l)

theorem headIsWs_reverse_pyStrip (l : List Char) :
    headIsWs (pyStrip l).reverse = false := by
  rw [pyStrip, reverse_stripRight]
  exact headIsWs_dropWhile _

theorem toNat_ofNat_valid (n : Nat) (h : n.isValidChar) : (Char.ofNat n).toNat = n := by
  unfold Char.ofNat
  rw [dif_pos h]
  unfold Char.ofNatAux Char.toNat
  simp [UInt32.toNat, BitVec.toNat_ofNatLt]

theorem toLower_eq (c : Char) :
    c.toLower = if c.toNat ≥ 65 ∧ c.toNat ≤ 90 then Char.ofNat (c.toNat + 32) else c := rfl

theorem toLower_toLower (c : Char) : (Char.toLower c).toLower = c.toLower := by
  rw [toLower_eq c]
  by_cases h : c.toNat ≥ 65 ∧ c.toNat ≤ 90
  · rw [if_pos h, toLower_eq]
    have hv : (c.toNat + 32).isValidChar := by left; omega
    rw [toNat_ofNat_valid _ hv]
    rw [if_neg (by omega)]
  · rw [if_neg h, toLower_eq, if_neg h]

theorem pyWs_toLower (c : Char) : pyWs c.toLower = pyWs c := by
  rw [toLower_eq c]
  by_cases h : c.toNat ≥ 65 ∧ c.toNat ≤ 90
  · rw [if_pos h]
    have hv : (c.toNat + 32).isValidChar := by left; omega
    have h1 : pyWs (Char.ofNat (c.toNat + 32)) = false := by
      simp only [pyWs, toNat_ofNat_valid _ hv, Bool.or_eq_false_iff,
        decide_eq_false_iff_not]
      omega
    have h2 : pyWs c = false := by
      simp only [pyWs, Bool.or_eq_false_iff, decide_eq_false_iff_not]
      omega
    rw [h1, h2]
  · rw [if_neg h]

theorem toLower_of_pyWs (c : Char) (h : pyWs c = true) : c.toLower = c := by
  rw [toLower_eq]
  simp only [pyWs, Bool.or_eq_true, decide_eq_true_eq] at h
  rw [if_neg (by omega)]

theorem headIsWs_pyLower (l : List Char) : headIsWs (pyLower l) = headIsWs l := by
  cases l with
  | nil => rfl
  | cons c rest => simp [pyLower, headIsWs, pyWs_toLower]

theorem reverse_pyLower (l : List Char) : (pyLower l).reverse = pyLower l.reverse := by
  rw [pyLower, pyLower, List.map_reverse]

theorem collapsedB_pyLower (l : List Char) : collapsedB (pyLower l) = collapsedB l := by
  induction l with
  | nil => rfl
  | cons c rest ih =>
    simp only [pyLower, List.map_cons, collapsedB]
    have hh : headIsWs (List.map Char.toLower rest) = headIsWs rest := headIsWs_pyLower rest
    by_cases hc : pyWs c
    · rw [if_pos (by rw [pyWs_toLower]; exact hc), if_pos hc]
      rw [toLower_of_pyWs c hc, hh]
      have : collapsedB (List.map Char.toLower rest) = collapsedB rest := ih
      rw [this]
    · rw [if_neg (by rw [pyWs_toLower]; exact hc), if_neg hc]
      have : collapsedB (List.map Char.toLower rest) = collapsedB rest := ih
      rw [this]

theorem pyLower_pyLower (l : List Char) : pyLower (pyLower l) = pyLower l := by
  induction l with
  | nil => rfl
  | cons c rest ih => simp [pyLower, toLower_toLower, ih]

theorem minimalCleanText_idem (x : List Char) :
    minimalCleanText (minimalCleanText x) = minimalCleanText x := by
  set y := pyStrip (collapseWs x) with hy
  have hcol : collapsedB y = true := by
    rw [hy, pyStrip, pyStripLeft]
    exact collapsedB_stripRight _ (collapsedB_dropWhile _ (collapsedB_collapseWs x))
  have hz : collapsedB (pyLower y) = true := by rw [collapsedB_pyLower]; exact hcol
  have hhead : headIsWs (pyLower y) = false := by
    rw [headIsWs_pyLower, hy]
    exact headIsWs_pyStrip _
  have hlast : headIsWs (pyLower y).reverse = false := by
    rw [reverse_pyLower, headIsWs_pyLower, hy]
    exact headIsWs_reverse_pyStrip _
  rw [minimalCleanText, minimalCleanText]
  rw [← hy]
  rw [collapseWs_of_collapsedB _ hz, strip_eq_self _ hhead hlast, pyLower_pyLower]

/-!  Claim C5 -/

/-- C5 counterexample: `ComplaintChunkProcessor.clean_text` is **not**
idempotent: on `"a # b"` the first pass removes `#` leaving a double
space (`"a  b"`), which a second pass collapses to `"a b"`. -/
theorem claim_C5_counterexample :
    complaintCleanText (complaintCleanText ['a', ' ', '#', ' ', 'b']) ≠
      complaintCleanText ['a', ' ', '#', ' ', 'b'] := by decide

/-- C5 (amended): `MinimalTextPreprocessor.clean_text` (whitespace collapse,
strip, lowercase) is idempotent for every input string; the claim's second
normalizer `ComplaintChunkProcessor.clean_text` is not. -/
theorem claim_C5_minimal_idempotent (x : List Char) :
    minimalCleanText (minimalCleanText x) = minimalCleanText x :=
  minimalCleanText_idem x


/-! ## Substring test (Python `in` on strings) -/

/-- Does `needle` occur at the start of `hay`? -/
def leadsWith : List Char → List Char → Bool
  | [], _ => true
  | _ :: _, [] => false
  | a :: as, b :: bs => a == b && leadsWith as bs

/-- Python `needle in hay` for strings. -/
def hasSub (needle : List Char) : List Char → Bool
  | [] => leadsWith needle []
  | c :: t => leadsWith needle (c :: t) || hasSub needle t

/-! ## Final-answer selection (C3)

From scripts/rag_pipeline.py, Step 7: the generated answer is replaced by a
fixed sentinel when it contains a hedge phrase (matched on the lowercased
answer) or no chunks were retrieved; otherwise it is shown stripped. -/

/-- The hedge phrases tested against `answer.lower()`. -/
def hedgePhrases : List (List Char) :=
  ["not enough information".data, "insufficient data".data,
    "cannot answer based on provided context".data]

/-- The sentinel exposed when the answer hedges. -/
def sentinelAnswer : List Char :=
  "The available complaint data does not provide enough information to answer this question.".data

/-- The `final_answer` selection of the interactive runner (Step 7). -/
def finalAnswer (answer : List Char) (retrievedCount : Nat) : List Char :=
  if hedgePhrases.any (fun p => hasSub p (pyLower answer)) || retrievedCount == 0 then
    sentinelAnswer
  else pyStrip answer

/-- C3: an answer containing a hedge phrase (case-insensitively) is exposed
as the verbatim sentinel; an answer containing none is exposed stripped
(the runner only reaches this step with at least one retrieved chunk). -/
theorem claim_C3_sentinel (answer : List Char) (n : Nat) :
    (hedgePhrases.any (fun p => hasSub p (pyLower answer)) = true →
      finalAnswer answer n = sentinelAnswer) ∧
    (hedgePhrases.any (fun p => hasSub p (pyLower answer)) = false → 0 < n →
      finalAnswer answer n = pyStrip answer) := by
  constructor
  · intro h
    rw [finalAnswer, if_pos]
    rw [h]
    simp
  · intro h hn
    rw [finalAnswer, if_neg]
    rw [h]
    simp
    omega

/-- C3 witness: the spec's sentinel scenario (a stub answer
`"insufficient data to answer"`) yields the sentinel; a plain answer is
exposed stripped. -/
theorem claim_C3_sentinel_witness :
    finalAnswer "insufficient data to answer".data 3 = sentinelAnswer ∧
    finalAnswer "Billing disputes rose.".data 3 =
      pyStrip "Billing disputes rose.".data :=
  ⟨(claim_C3_sentinel "insufficient data to answer".data 3).1 (by decide),
    (claim_C3_sentinel "Billing disputes rose.".data 3).2 (by decide) (by decide)⟩

/-! ## Product mapping (C4)

`ComplaintChunkProcessor.map_product` from src/src/data_loader.py. -/

/-- `map_product`: nested if/elif keyword tests on the lowercased
product and sub-product, read off the source. -/
def mapProduct (product subProduct : List Char) : List Char :=
  let p := pyLower product
  let sp := pyLower subProduct
  if hasSub "credit card".data p || hasSub "credit card".data sp then
    "Credit card".data
  else if (["payday".data, "personal loan".data].any fun t => hasSub t p) ||
      (["loan".data, "installment".data].any fun t => hasSub t sp) then
    "Personal loan".data
  else if hasSub "buy now".data p || hasSub "bnpl".data sp then
    "Buy Now, Pay Later".data
  else if ["savings".data, "checking".data].any (fun t => hasSub t p) then
    "Savings account".data
  else if ["money transfer".data, "virtual currency".data].any (fun t => hasSub t p) then
    "Money transfer, virtual currency".data
  else "Unmapped".data

/-- The same mapping written as an ordered rule list, each rule a
containment predicate on the (lowercased) pair plus a target label. -/
def productRules : List ((List Char → List Char → Bool) × List Char) :=
  [(fun p sp => hasSub "credit card".data p || hasSub "credit card".data sp,
      "Credit card".data),
    (fun p sp => (["payday".data, "personal loan".data].any fun t => hasSub t p) ||
      (["loan".data, "installment".data].any fun t => hasSub t sp),
      "Personal loan".data),
    (fun p sp => hasSub "buy now".data p || hasSub "bnpl".data sp,
      "Buy Now, Pay Later".data),
    (fun p _ => ["savings".data, "checking".data].any (fun t => hasSub t p),
      "Savings account".data),
    (fun p _ => ["money transfer".data, "virtual currency".data].any (fun t => hasSub t p),
      "Money transfer, virtual currency".data)]

/-- First-match-wins application of an ordered rule list. -/
def firstMatch : List ((List Char → List Char → Bool) × List Char) →
    List Char → List Char → List Char
  | [], _, _ => "Unmapped".data
  | r :: rs, p, sp => if r.1 p sp then r.2 else firstMatch rs p sp


/-! ## Batch processing model (C4, C7, C10)

`ComplaintChunkProcessor.process_chunks` from src/src/data_loader.py: per
CSV chunk it increments the chunk/row counters, maps products (reading a
missing `Product`/`Sub-product` column as `""` via `row.get(col, "")` and a
NaN cell as `"nan"` via `str`), filters to the allowed products, drops rows
whose narrative is NaN (`dropna` raises `KeyError` — re-raised as a
`RuntimeError` naming the column — when the narrative column is absent) or
blank after `strip`, cleans the narrative, and accumulates per-product
counts of the kept rows. -/

/-- The five allowed target categories (`self.allowed_products`). -/
def allowedProducts : List (List Char) :=
  ["Credit card".data, "Personal loan".data, "Buy Now, Pay Later".data,
    "Savings account".data, "Money transfer, virtual currency".data]

/-- One raw CSV row; `none` models a NaN cell. -/
structure RawRow where
  product : Option (List Char)
  subProduct : Option (List Char)
  narrative : Option (List Char)
deriving DecidableEq

/-- One CSV chunk together with which columns are present. -/
structure RawBatch where
  hasProductCol : Bool
  hasSubProductCol : Bool
  hasNarrativeCol : Bool
  rows : List RawRow
deriving DecidableEq

/-- `row.get(col, "")` then `str(·)`: a missing column reads as `""`,
a NaN cell as `"nan"`. -/
def getField (colPresent : Bool) (v : Option (List Char)) : List Char :=
  if colPresent then
    match v with
    | some s => s
    | none => "nan".data
  else []

/-- A kept (cleaned) row of the output data frame. -/
structure KeptRow where
  mappedProduct : List Char
  narrative : List Char
deriving DecidableEq

/-- The running `self.stats` dictionary; `productsFound` is the
`products_found` dict as an association list. -/
structure Stats where
  chunksProcessed : Nat
  rowsLoaded : Nat
  rowsKept : Nat
  rowsDroppedTotal : Nat
  rowsDroppedNoNarrative : Nat
  rowsDroppedWrongProduct : Nat
  productsFound : List (List Char × Nat)
deriving DecidableEq

/-- The statistics at construction time. -/
def initStats : Stats := ⟨0, 0, 0, 0, 0, 0, []⟩

/-- `products_found[k] = products_found.get(k, 0) + n`. -/
def bumpCount (k : List Char) (n : Nat) : List (List Char × Nat) → List (List Char × Nat)
  | [] => [(k, n)]
  | (k2, v) :: rest => if k2 = k then (k2, v + n) :: rest else (k2, v) :: bumpCount k n rest

/-- Accumulate one count for each key of `keys` (the aggregation of the
kept chunk\'s `value_counts` into `products_found`). -/
def addCounts (acc : List (List Char × Nat)) (keys : List (List Char)) :
    List (List Char × Nat) :=
  keys.foldl (fun a k => bumpCount k 1 a) acc

/-- Process one chunk.  Returns the kept rows (or the error message) plus
the statistics as mutated up to the failure point. -/
def processChunk (st : Stats) (b : RawBatch) :
    Except (List Char) (List KeptRow) × Stats :=
  let st1 := { st with chunksProcessed := st.chunksProcessed + 1,
                       rowsLoaded := st.rowsLoaded + b.rows.length }
  let mapped := b.rows.map (fun r =>
    (r, mapProduct (getField b.hasProductCol r.product)
      (getField b.hasSubProductCol r.subProduct)))
  let productFiltered := mapped.filter (fun rm => decide (rm.2 ∈ allowedProducts))
  let st2 := { st1 with rowsDroppedWrongProduct :=
    st1.rowsDroppedWrongProduct + (b.rows.length - productFiltered.length) }
  if b.hasNarrativeCol = false then
    (Except.error "Unexpected error: 'Consumer complaint narrative'".data, st2)
  else
    let narKept := (productFiltered.filter (fun rm => rm.1.narrative.isSome)).filter
      (fun rm => pyStrip (rm.1.narrative.getD []) ≠ [])
    let st3 := { st2 with rowsDroppedNoNarrative :=
      st2.rowsDroppedNoNarrative + (productFiltered.length - narKept.length) }
    let kept := narKept.map (fun rm =>
      (⟨rm.2, complaintCleanText (rm.1.narrative.getD [])⟩ : KeptRow))
    let st4 := { st3 with
      rowsKept := st3.rowsKept + kept.length,
      productsFound := addCounts st3.productsFound (kept.map (·.mappedProduct)) }
    (Except.ok kept, st4)

/-- The chunk loop of `process_chunks`: run batches in order, stopping at
the first failure (the exception aborts the whole call). -/
def runChunks : Stats → List RawBatch → Except (List Char) (List (List KeptRow)) × Stats
  | st, [] => (Except.ok [], st)
  | st, b :: bs =>
    match processChunk st b with
    | (Except.error e, st2) => (Except.error e, st2)
    | (Except.ok kept, st2) =>
      match runChunks st2 bs with
      | (Except.error e, st3) => (Except.error e, st3)
      | (Except.ok rest, st3) => (Except.ok (kept :: rest), st3)

/-- `process_chunks` in full: after the loop, if at least one chunk frame
was appended, concatenate, set `rows_dropped_total`, and return the
cleaned data. -/
def processChunksAll (batches : List RawBatch) :
    Except (List Char) (List KeptRow) × Stats :=
  match runChunks initStats batches with
  | (Except.error e, st) => (Except.error e, st)
  | (Except.ok frames, st) =>
    if frames.length > 0 then
      (Except.ok frames.flatten,
        { st with rowsDroppedTotal := st.rowsLoaded - st.rowsKept })
    else (Except.ok [], st)


/-! ## Statistics lemmas and claim theorems for the processor -/

/-- Total of all per-product counts. -/
def sumCounts (l : List (List Char × Nat)) : Nat := (l.map (·.2)).sum

/-- The accounting identity the running counters must satisfy, plus the
agreement of the per-product counts with `rows_kept`. -/
def statsInv (st : Stats) : Prop :=
  st.rowsLoaded = st.rowsKept + st.rowsDroppedWrongProduct + st.rowsDroppedNoNarrative ∧
    sumCounts st.productsFound = st.rowsKept

/-- Componentwise monotonicity of the running counters. -/
def statsLe (a b : Stats) : Prop :=
  a.chunksProcessed ≤ b.chunksProcessed ∧ a.rowsLoaded ≤ b.rowsLoaded ∧
    a.rowsKept ≤ b.rowsKept ∧ a.rowsDroppedNoNarrative ≤ b.rowsDroppedNoNarrative ∧
    a.rowsDroppedWrongProduct ≤ b.rowsDroppedWrongProduct

theorem sumCounts_bumpCount (k : List Char) (n : Nat) (acc : List (List Char × Nat)) :
    sumCounts (bumpCount k n acc) = sumCounts acc + n := by
  induction acc with
  | nil => simp [bumpCount, sumCounts]
  | cons hd tl ih =>
    obtain ⟨k2, v⟩ := hd
    by_cases h : k2 = k
    · simp [bumpCount, h, sumCounts]
      omega
    · simp only [bumpCount, if_neg h]
      simp only [sumCounts, List.map_cons, List.sum_cons] at ih ⊢
      omega

theorem sumCounts_addCounts (acc : List (List Char × Nat)) (keys : List (List Char)) :
    sumCounts (addCounts acc keys) = sumCounts acc + keys.length := by
  induction keys generalizing acc with
  | nil => simp [addCounts]
  | cons k ks ih =>
    simp only [addCounts, List.foldl_cons, List.length_cons]
    have := ih (bumpCount k 1 acc)
    simp only [addCounts] at this
    rw [this, sumCounts_bumpCount]
    omega

theorem filter_length_le_local {α : Type} (p : α → Bool) (l : List α) :
    (l.filter p).length ≤ l.length := List.length_filter_le p l


/-- Membership in the kept rows forces an allowed mapped product. -/
theorem processChunk_kept_allowed (st : Stats) (b : RawBatch)
    (kept : List KeptRow) (h : (processChunk st b).1 = Except.ok kept) :
    ∀ r ∈ kept, r.mappedProduct ∈ allowedProducts := by
  intro r hr
  by_cases hb : b.hasNarrativeCol = false
  · simp [processChunk, hb] at h
  · have hb2 : b.hasNarrativeCol = true := by simpa using hb
    simp only [processChunk, hb2] at h
    rw [if_neg (by decide)] at h
    simp only [Except.ok.injEq] at h
    subst h
    simp only [List.mem_map] at hr
    obtain ⟨rm, hrm, hre⟩ := hr
    simp only [List.mem_filter] at hrm
    have h2 := hrm.1.1
    simp only [List.mem_filter, decide_eq_true_eq] at h2
    rw [← hre]
    exact h2.2

/-- C4: the product mapping is the first-match-wins application of the
ordered containment rules on the lowercased fields, the two concrete
cases of the spec hold, and rows whose mapped product is not one of the
five allowed targets (in particular `"Unmapped"`) never reach the
cleaned output. -/
theorem claim_C4_mapping :
    (∀ p sp, mapProduct p sp = firstMatch productRules (pyLower p) (pyLower sp)) ∧
    mapProduct "Credit Card Services".data [] = "Credit card".data ∧
    mapProduct "Unrelated Widget".data [] = "Unmapped".data ∧
    "Unmapped".data ∉ allowedProducts ∧
    (∀ st b kept, (processChunk st b).1 = Except.ok kept →
      ∀ r ∈ kept, r.mappedProduct ∈ allowedProducts) := by
  refine ⟨fun p sp => rfl, by decide, by decide, by decide, ?_⟩
  exact processChunk_kept_allowed

/-- C4 witness: a concrete chunk is processed and its kept row carries an
allowed product. -/
theorem claim_C4_mapping_witness :
    (processChunk initStats
        ⟨true, true, true, [⟨some "Credit Card Services".data, some [],
          some "Card was overcharged".data⟩]⟩).1 =
      Except.ok [⟨"Credit card".data, "card was overcharged".data⟩] ∧
    ∀ r ∈ [(⟨"Credit card".data, "card was overcharged".data⟩ : KeptRow)],
      r.mappedProduct ∈ allowedProducts :=
  ⟨rfl, claim_C4_mapping.2.2.2.2 initStats
    ⟨true, true, true, [⟨some "Credit Card Services".data, some [],
      some "Card was overcharged".data⟩]⟩
    [⟨"Credit card".data, "card was overcharged".data⟩] rfl⟩


/-- A chunk whose CSV lacks the `Product` column entirely, with a row that
is nevertheless mappable through its sub-product. -/
def batchNoProductCol : RawBatch :=
  ⟨false, true, true,
    [⟨none, some "installment loan".data, some "Payment issue".data⟩]⟩

/-- C7 counterexample: a batch missing the category (`Product`) column is
**not** failed — `row.get("Product", "")` silently reads `""`, the row is
mapped through its sub-product, and it is kept in the cleaned output. -/
theorem claim_C7_counterexample :
    (processChunk initStats batchNoProductCol).1 =
      Except.ok [⟨"Personal loan".data, "payment issue".data⟩] := rfl

/-- C7 (amended): a batch missing the narrative column fails as a whole
with an error naming the column and contributes no rows, but a missing
category column is read as empty instead of failing, so such a batch is
accepted (and rows can still be kept via the sub-product). -/
theorem claim_C7_batch_failure (st : Stats) (b : RawBatch) :
    (b.hasNarrativeCol = false →
      (processChunk st b).1 =
        Except.error "Unexpected error: 'Consumer complaint narrative'".data ∧
      ∀ kept, (processChunk st b).1 ≠ Except.ok kept) ∧
    (b.hasNarrativeCol = true →
      ∃ kept, (processChunk st b).1 = Except.ok kept) := by
  constructor
  · intro hb
    have he : (processChunk st b).1 =
        Except.error "Unexpected error: 'Consumer complaint narrative'".data := by
      simp only [processChunk, hb]
      rw [if_pos trivial]
    refine ⟨he, fun kept hk => ?_⟩
    rw [he] at hk
    exact absurd hk (by simp)
  · intro hb
    simp only [processChunk, hb]
    rw [if_neg (by simp)]
    exact ⟨_, rfl⟩

/-- C7 witness: the narrative-column failure at a concrete batch, and the
accepting branch at a batch that has the narrative column. -/
theorem claim_C7_batch_failure_witness :
    (processChunk initStats ⟨true, true, false, []⟩).1 =
      Except.error "Unexpected error: 'Consumer complaint narrative'".data ∧
    ∃ kept, (processChunk initStats batchNoProductCol).1 = Except.ok kept :=
  ⟨((claim_C7_batch_failure initStats ⟨true, true, false, []⟩).1 rfl).1,
    (claim_C7_batch_failure initStats batchNoProductCol).2 rfl⟩


theorem runChunks_ok_length (batches : List RawBatch) :
    ∀ st frames st2, runChunks st batches = (Except.ok frames, st2) →
      frames.length = batches.length := by
  induction batches with
  | nil =>
    intro st frames st2 h
    simp only [runChunks, Prod.mk.injEq, Except.ok.injEq] at h
    rw [← h.1]
    rfl
  | cons b bs ih =>
    intro st frames st2 h
    rw [runChunks] at h
    split at h
    next e stA hp => simp at h
    next kept stA hp =>
      split at h
      next e2 stB hr => simp at h
      next rest stB hr =>
        simp only [Prod.mk.injEq, Except.ok.injEq] at h
        rw [← h.1, List.length_cons, ih stA rest stB hr]
        rfl

/-- C10: the running counters satisfy the accounting identity and the
per-product totals agree with `rows_kept` after every successfully
processed batch; every counter is monotone across any batch (even a
failing one); and when `rows_dropped_total` is set at the end of a
non-empty successful run it equals `rows_loaded - rows_kept`. -/
theorem claim_C10_stats_invariant :
    statsInv initStats ∧
    (∀ st b kept st2, processChunk st b = (Except.ok kept, st2) →
      statsInv st → statsInv st2) ∧
    (∀ st b, statsLe st (processChunk st b).2) ∧
    (∀ batches kept st2, processChunksAll batches = (Except.ok kept, st2) →
      batches ≠ [] → st2.rowsDroppedTotal = st2.rowsLoaded - st2.rowsKept) := by
  refine ⟨⟨rfl, rfl⟩, ?_, ?_, ?_⟩
  · intro st b kept st2 h hinv
    by_cases hb : b.hasNarrativeCol = false
    · simp only [processChunk, hb] at h
      rw [if_pos trivial] at h
      simp at h
    · have hb2 : b.hasNarrativeCol = true := by simpa using hb
      simp only [processChunk, hb2] at h
      rw [if_neg (by simp)] at h
      rw [Prod.mk.injEq] at h
      obtain ⟨hk, hst⟩ := h
      subst hst
      obtain ⟨hi1, hi2⟩ := hinv
      have f1 := (List.length_filter_le (fun rm => decide (rm.2 ∈ allowedProducts))
        (List.map (fun r => (r, mapProduct (getField b.hasProductCol r.product)
          (getField b.hasSubProductCol r.subProduct))) b.rows)).trans
        (le_of_eq (List.length_map _ _))
      have f2 := (List.length_filter_le
        (fun (rm : RawRow × List Char) => decide (pyStrip (rm.1.narrative.getD []) ≠ []))
        ((List.filter (fun rm => decide (rm.2 ∈ allowedProducts))
          (List.map (fun r => (r, mapProduct (getField b.hasProductCol r.product)
            (getField b.hasSubProductCol r.subProduct))) b.rows)).filter
          (fun rm => rm.1.narrative.isSome))).trans
        (List.length_filter_le (fun (rm : RawRow × List Char) => rm.1.narrative.isSome) _)
      constructor
      · simp only [statsInv] at hi1 ⊢
        simp only [List.length_map]
        omega
      · simp only [statsInv, sumCounts_addCounts, List.length_map]
        omega
  · intro st b
    by_cases hb : b.hasNarrativeCol = false
    · simp only [processChunk, hb]
      rw [if_pos trivial]
      exact ⟨Nat.le_succ _, Nat.le_add_right _ _, le_refl _, le_refl _,
        Nat.le_add_right _ _⟩
    · have hb2 : b.hasNarrativeCol = true := by simpa using hb
      simp only [processChunk, hb2]
      rw [if_neg (by simp)]
      exact ⟨Nat.le_succ _, Nat.le_add_right _ _, Nat.le_add_right _ _,
        Nat.le_add_right _ _, Nat.le_add_right _ _⟩
  · intro batches kept st2 h hne
    rw [processChunksAll] at h
    split at h
    next e stA hr => simp at h
    next frames stA hr =>
      by_cases hf : frames.length > 0
      · rw [if_pos hf] at h
        rw [Prod.mk.injEq] at h
        rw [← h.2]
      · have hlen : frames.length = batches.length :=
          runChunks_ok_length batches _ _ _ hr
        rw [hlen] at hf
        exact absurd (List.length_pos.mpr hne) hf

/-- C10 witness: the preserved invariant, monotonicity, and the
`rows_dropped_total` equation at a concrete one-batch run. -/
theorem claim_C10_stats_invariant_witness :
    statsInv (processChunk initStats batchNoProductCol).2 ∧
    statsLe initStats (processChunk initStats batchNoProductCol).2 ∧
    (processChunksAll [batchNoProductCol]).2.rowsDroppedTotal =
      (processChunksAll [batchNoProductCol]).2.rowsLoaded -
        (processChunksAll [batchNoProductCol]).2.rowsKept := by
  refine ⟨?_, claim_C10_stats_invariant.2.2.1 initStats batchNoProductCol, ?_⟩
  · exact claim_C10_stats_invariant.2.1 initStats batchNoProductCol
      _ _ rfl claim_C10_stats_invariant.1
  · exact claim_C10_stats_invariant.2.2.2 [batchNoProductCol] _ _ rfl
      (by simp)


/-! ## PromptEngineer (C1)

`PromptEngineer.build_prompt` from src/src/rag/prompt_template.py: admits
retrieved documents in rank order while `current_length + len(chunk_text)`
stays within `max_context_length` (skipping empty documents, stopping at
the first non-fitting one), appends each admitted document **stripped**,
and joins the parts with the delimiter `"\n---\n"` — whose length is not
counted against the budget. -/

/-- The fixed delimiter placed between admitted documents. -/
def ctxDelimiter : List Char := "\n---\n".data

/-- The admission loop of `build_prompt` (producing `context_parts`). -/
def contextParts (maxLen : Nat) : Nat → List (List Char) → List (List Char)
  | _, [] => []
  | cur, d :: rest =>
    if d = [] then contextParts maxLen cur rest
    else if cur + d.length ≤ maxLen then
      pyStrip d :: contextParts maxLen (cur + d.length) rest
    else []

/-- The raw (unstripped) documents the loop admits, taken over the
empty-document-free list. -/
def fitPrefix (maxLen : Nat) : Nat → List (List Char) → List (List Char)
  | _, [] => []
  | cur, d :: rest =>
    if cur + d.length ≤ maxLen then d :: fitPrefix maxLen (cur + d.length) rest
    else []

/-- `combined_context`: the evidence block of the prompt. -/
def combinedContext (maxLen : Nat) (chunks : List (List Char)) : List Char :=
  List.intercalate ctxDelimiter (contextParts maxLen 0 chunks)

/-- The fixed instruction template around evidence and question
(`prompt = f"""...""".strip()`). -/
def promptText (ctx question : List Char) : List Char :=
  pyStrip (("\nYou are an impartial financial assistant for CrediTrust Financial. Your task is to answer business questions using only the information provided in the retrieved customer complaint narratives.\n\nInstructions:\n- Base your answer strictly on the retrieved context below.\n- Do not add information, speculate, or make assumptions beyond the given context.\n- If the context does not contain enough information to confidently answer the question, clearly say:  \n  **\"The available complaint data does not provide enough information to answer this question.\"**\n\nRetrieved Complaint Narratives:\n".data ++ ctx ++ "\n\nBusiness Question:\n".data ++ question ++ "\n\nAnswer:\n".data))

/-- `build_prompt` itself: validation, evidence assembly, template. -/
def buildPrompt (maxLen : Nat) (question : List Char) (chunks : List (List Char)) :
    Except (List Char) (List Char) :=
  if pyStrip question = [] then
    Except.error "Question must be a non-empty string.".data
  else if chunks = [] then
    Except.error "Retrieved chunks must be a non-empty list.".data
  else Except.ok (promptText (combinedContext maxLen chunks) question)

/-- Sum of the lengths of a list of strings. -/
def sumLen (l : List (List Char)) : Nat := (l.map List.length).sum

theorem contextParts_eq_fitPrefix (maxLen : Nat) (chunks : List (List Char)) :
    ∀ cur, contextParts maxLen cur chunks =
      (fitPrefix maxLen cur (chunks.filter (· ≠ []))).map pyStrip := by
  induction chunks with
  | nil => intro cur; rfl
  | cons d rest ih =>
    intro cur
    by_cases hd : d = []
    · rw [contextParts, if_pos hd]
      have : (d :: rest).filter (· ≠ []) = rest.filter (· ≠ []) := by
        simp [List.filter_cons, hd]
      rw [this, ih]
    · have hf : (d :: rest).filter (· ≠ []) = d :: rest.filter (· ≠ []) := by
        simp [List.filter_cons, hd]
      rw [contextParts, if_neg hd, hf]
      by_cases hfit : cur + d.length ≤ maxLen
      · rw [if_pos hfit, fitPrefix, if_pos hfit, List.map_cons, ih]
      · rw [if_neg hfit, fitPrefix, if_neg hfit]
        rfl

theorem sumLen_fitPrefix (maxLen : Nat) (chunks : List (List Char)) :
    ∀ cur, sumLen (fitPrefix maxLen cur chunks) ≤ maxLen - cur := by
  induction chunks with
  | nil => intro cur; simp [fitPrefix, sumLen]
  | cons d rest ih =>
    intro cur
    rw [fitPrefix]
    by_cases hfit : cur + d.length ≤ maxLen
    · rw [if_pos hfit]
      have := ih (cur + d.length)
      simp only [sumLen, List.map_cons, List.sum_cons] at this ⊢
      omega
    · rw [if_neg hfit]
      simp [sumLen]

theorem fitPrefix_isPrefix (maxLen : Nat) (chunks : List (List Char)) :
    ∀ cur, (fitPrefix maxLen cur chunks) <+: chunks := by
  induction chunks with
  | nil => intro cur; exact List.prefix_refl _
  | cons d rest ih =>
    intro cur
    rw [fitPrefix]
    by_cases hfit : cur + d.length ≤ maxLen
    · rw [if_pos hfit]
      obtain ⟨t, ht⟩ := ih (cur + d.length)
      exact ⟨t, by rw [List.cons_append, ht]⟩
    · rw [if_neg hfit]
      exact List.nil_prefix

theorem dropWhile_length_le (p : Char → Bool) (l : List Char) :
    (l.dropWhile p).length ≤ l.length := by
  induction l with
  | nil => simp [List.dropWhile]
  | cons c rest ih =>
    simp only [List.dropWhile]
    by_cases h : p c
    · simp [h]; exact Nat.le_succ_of_le ih
    · simp [h]

theorem pyStrip_length_le (l : List Char) : (pyStrip l).length ≤ l.length := by
  rw [pyStrip, pyStripLeft, pyStripRight, List.length_reverse]
  calc ((l.dropWhile pyWs).reverse.dropWhile pyWs).length
      ≤ (l.dropWhile pyWs).reverse.length := dropWhile_length_le _ _
    _ = (l.dropWhile pyWs).length := List.length_reverse _
    _ ≤ l.length := dropWhile_length_le _ _

theorem intercalate_length_le (sep : List Char) (parts : List (List Char)) :
    (List.intercalate sep parts).length ≤ sumLen parts + sep.length * parts.length := by
  induction parts with
  | nil => simp [List.intercalate, sumLen]
  | cons p rest ih =>
    cases rest with
    | nil => simp [List.intercalate, sumLen]
    | cons q tail =>
      have hexp : List.intercalate sep (p :: q :: tail) =
          p ++ sep ++ List.intercalate sep (q :: tail) := by
        simp [List.intercalate, List.intersperse]
      rw [hexp]
      have hmul : sep.length * (tail.length + 1 + 1) =
          sep.length * (tail.length + 1) + sep.length := by ring
      simp only [List.length_append, sumLen, List.map_cons, List.sum_cons,
        List.length_cons] at ih ⊢
      omega


theorem sumLen_map_pyStrip_le (l : List (List Char)) :
    sumLen (l.map pyStrip) ≤ sumLen l := by
  induction l with
  | nil => simp [sumLen]
  | cons d rest ih =>
    simp only [List.map_cons, sumLen, List.sum_cons] at ih ⊢
    have := pyStrip_length_le d
    omega

/-- C1 counterexample: with budget 2 and documents `"a"`, `"b"`, both
documents are admitted (their lengths sum to 2) but the emitted evidence
block `"a\n---\nb"` has length 7 > 2, because the delimiters are not
counted against the budget; and an admitted document is emitted stripped,
not in full. -/
theorem claim_C1_counterexample :
    2 < (combinedContext 2 [['a'], ['b']]).length ∧
    buildPrompt 2 ['q'] [['a'], ['b']] =
      Except.ok (promptText (combinedContext 2 [['a'], ['b']]) ['q']) ∧
    contextParts 10 0 [" a ".data] ≠ [" a ".data] :=
  ⟨by decide, rfl, by decide⟩

/-- C1 (amended): the admission loop of `build_prompt` keeps the **sum of
the raw lengths of the admitted documents** within `max_context_length`;
each admitted document is emitted stripped of surrounding whitespace but
never otherwise truncated; admitted documents are a prefix of the
non-empty documents in rank order (lower-ranked ones are dropped first);
and the joined evidence block exceeds the budget by at most the length of
the delimiters between parts. -/
theorem claim_C1_context_budget (maxLen : Nat) (chunks : List (List Char)) :
    contextParts maxLen 0 chunks =
      (fitPrefix maxLen 0 (chunks.filter (· ≠ []))).map pyStrip ∧
    sumLen (fitPrefix maxLen 0 (chunks.filter (· ≠ []))) ≤ maxLen ∧
    fitPrefix maxLen 0 (chunks.filter (· ≠ [])) <+: chunks.filter (· ≠ []) ∧
    (combinedContext maxLen chunks).length ≤
      maxLen + ctxDelimiter.length * (contextParts maxLen 0 chunks).length := by
  have hsum : sumLen (fitPrefix maxLen 0 (chunks.filter (· ≠ []))) ≤ maxLen := by
    simpa using sumLen_fitPrefix maxLen (chunks.filter (· ≠ [])) 0
  refine ⟨contextParts_eq_fitPrefix maxLen chunks 0, hsum,
    fitPrefix_isPrefix maxLen _ 0, ?_⟩
  rw [combinedContext]
  calc (List.intercalate ctxDelimiter (contextParts maxLen 0 chunks)).length
      ≤ sumLen (contextParts maxLen 0 chunks) +
          ctxDelimiter.length * (contextParts maxLen 0 chunks).length :=
        intercalate_length_le _ _
    _ ≤ maxLen + ctxDelimiter.length * (contextParts maxLen 0 chunks).length := by
        have h1 : sumLen (contextParts maxLen 0 chunks) ≤ maxLen := by
          rw [contextParts_eq_fitPrefix maxLen chunks 0]
          exact le_trans (sumLen_map_pyStrip_le _) hsum
        omega


/-! ## QuestionRetriever (C8)

From src/src/rag/retriever.py.  `__init__` validates the *default*
`top_k`; `retrieve` embeds the question, then uses
`top_k if top_k is not None else self.top_k` and issues the vector search
— the per-call override is never validated. -/

/-- The retriever state after construction: the configured default. -/
structure QuestionRetriever where
  topK : Int
deriving DecidableEq

/-- `QuestionRetriever.__init__` (validation then construction); errors
are wrapped in a `RuntimeError` whose inner message is modelled. -/
def mkQuestionRetriever (vectorStoreValid : Bool) (embeddingModelName : List Char)
    (topK : Int) : Except (List Char) QuestionRetriever :=
  if vectorStoreValid = false then
    Except.error "Provided vector_store is invalid or not a Chroma instance.".data
  else if pyStrip embeddingModelName = [] then
    Except.error "Embedding model name must be a non-empty string.".data
  else if topK ≤ 0 then
    Except.error "top_k must be a positive integer.".data
  else Except.ok ⟨topK⟩

/-- `embed_question`: fails on an empty question, otherwise encodes (the
embedding itself is the opaque external capability; we record the query). -/
def embedQuestion (question : List Char) : Except (List Char) (List Char) :=
  if question = [] then Except.error "Question must be a non-empty string.".data
  else Except.ok question

/-- The nearest-neighbour search request `retrieve` hands to the store. -/
structure SearchCall where
  query : List Char
  k : Int
deriving DecidableEq

/-- `QuestionRetriever.retrieve`: embed, pick `k`, issue the search. -/
def retrieve (r : QuestionRetriever) (question : List Char)
    (topKArg : Option Int) : Except (List Char) SearchCall :=
  match embedQuestion question with
  | Except.error e => Except.error e
  | Except.ok emb =>
    let k := topKArg.getD r.topK
    Except.ok ⟨emb, k⟩

/-- C8 counterexample: a per-call override `k = -3` is **not** rejected —
the search is issued with `k = -3`. -/
theorem claim_C8_counterexample :
    retrieve ⟨5⟩ ['q'] (some (-3)) = Except.ok ⟨['q'], -3⟩ := rfl

/-- C8 (amended): construction rejects a non-positive *default* `top_k`
with an error; `retrieve` uses the configured default when no per-call
`k` is supplied; but a per-call override is passed to the search
unvalidated, whatever its sign. -/
theorem claim_C8_topk (v : Bool) (name : List Char) (k kd : Int)
    (r : QuestionRetriever) (q : List Char) :
    (v = true → pyStrip name ≠ [] → kd ≤ 0 →
      mkQuestionRetriever v name kd =
        Except.error "top_k must be a positive integer.".data) ∧
    (v = true → pyStrip name ≠ [] → 0 < kd →
      mkQuestionRetriever v name kd = Except.ok ⟨kd⟩) ∧
    (q ≠ [] → retrieve r q none = Except.ok ⟨q, r.topK⟩) ∧
    (q ≠ [] → retrieve r q (some k) = Except.ok ⟨q, k⟩) := by
  refine ⟨?_, ?_, ?_, ?_⟩
  · intro hv hn hk
    rw [mkQuestionRetriever, if_neg (by simp [hv]), if_neg hn, if_pos hk]
  · intro hv hn hk
    rw [mkQuestionRetriever, if_neg (by simp [hv]), if_neg hn,
      if_neg (by omega)]
  · intro hq
    rw [retrieve, embedQuestion, if_neg hq]
    rfl
  · intro hq
    rw [retrieve, embedQuestion, if_neg hq]
    rfl

/-- C8 witness: all four branches at concrete inputs. -/
theorem claim_C8_topk_witness :
    mkQuestionRetriever true ['m'] 0 =
      Except.error "top_k must be a positive integer.".data ∧
    mkQuestionRetriever true ['m'] 5 = Except.ok ⟨5⟩ ∧
    retrieve ⟨5⟩ ['q'] none = Except.ok ⟨['q'], 5⟩ ∧
    retrieve ⟨5⟩ ['q'] (some 2) = Except.ok ⟨['q'], 2⟩ :=
  ⟨(claim_C8_topk true ['m'] 2 0 ⟨5⟩ ['q']).1 rfl (by decide) (by decide),
    (claim_C8_topk true ['m'] 2 5 ⟨5⟩ ['q']).2.1 rfl (by decide) (by decide),
    (claim_C8_topk true ['m'] 2 5 ⟨5⟩ ['q']).2.2.1 (by decide),
    (claim_C8_topk true ['m'] 2 5 ⟨5⟩ ['q']).2.2.2 (by decide)⟩


/-! ## VectorStoreBuilder (C6)

`VectorStoreBuilder.build_chroma_store` from
src/src/chunking/vector_store_builder.py.  The whole body sits in a
`try/except` that prints and returns `None`; validation covers only the
documents list (non-empty) and the metadatas list (matching length) —
the embeddings list\'s length is never checked. -/

/-- What the store receives: either per-batch `add_documents` calls with
precomputed embedding slices, or one live-embedding `from_documents`. -/
inductive StoreResult where
  | batched (batches : List (List (List Char × List Char) × List (List Int)))
  | live (docs : List (List Char × List Char))
deriving DecidableEq

/-- The batching loop: `range(0, total_docs, 5000)`, slicing documents
and embeddings with the same indices (fuel is the document count). -/
def makeBatches : Nat → List (List Char × List Char) → List (List Int) →
    List (List (List Char × List Char) × List (List Int))
  | 0, _, _ => []
  | fuel + 1, docs, embs =>
    if docs = [] then []
    else (docs.take 5000, embs.take 5000) ::
      makeBatches fuel (docs.drop 5000) (embs.drop 5000)

/-- The `try` body of `build_chroma_store`: validations, then either the
precomputed-embeddings path or the live-embedding fallback. -/
def buildChromaBody (documents : Option (List (List Char)))
    (embeddingModel : Option (List Char))
    (metadatas : Option (List (List Char)))
    (embeddings : Option (List (List Int))) : Except (List Char) StoreResult :=
  match documents with
  | none => Except.error "Document list is missing, empty, or invalid.".data
  | some docs =>
    if docs = [] then Except.error "Document list is missing, empty, or invalid.".data
    else
      match metadatas with
      | none => Except.error "Metadata list is missing, invalid, or mismatched in length.".data
      | some md =>
        if md.length ≠ docs.length then
          Except.error "Metadata list is missing, invalid, or mismatched in length.".data
        else
          let lcDocuments := docs.zip md
          match embeddings with
          | some embs =>
            Except.ok (StoreResult.batched (makeBatches lcDocuments.length lcDocuments embs))
          | none =>
            match embeddingModel with
            | none => Except.error "No embedding model provided and no precomputed embeddings supplied.".data
            | some _ => Except.ok (StoreResult.live lcDocuments)

/-- `build_chroma_store`: the `except` clause prints the error and
returns `None`. -/
def buildChromaStore (documents : Option (List (List Char)))
    (embeddingModel : Option (List Char))
    (metadatas : Option (List (List Char)))
    (embeddings : Option (List (List Int))) : Option StoreResult :=
  match buildChromaBody documents embeddingModel metadatas embeddings with
  | Except.ok s => some s
  | Except.error _ => none

/-- C6 counterexample: an empty documents list produces a validation
error inside the body, but the caller receives `None`, not a raised
error; and an embeddings list of the wrong length (0 vectors for 1
document) passes validation and the build proceeds. -/
theorem claim_C6_counterexample :
    buildChromaStore (some []) (some ['m']) (some []) (some []) = none ∧
    buildChromaBody (some []) (some ['m']) (some []) (some []) =
      Except.error "Document list is missing, empty, or invalid.".data ∧
    buildChromaStore (some [['d']]) (some ['m']) (some [['x']]) (some []) =
      some (StoreResult.batched [([(['d'], ['x'])], [])]) := by
  exact ⟨rfl, rfl, rfl⟩

/-- C6 (amended): `build_chroma_store` checks only that documents form a
non-empty list and metadatas a list of equal length; the embeddings
list\'s length is never validated (any length is accepted); and when any
validation fails the error is caught by the function\'s own handler and
`None` is returned to the caller instead of an exception. -/
theorem claim_C6_validation (docs : List (List Char)) (em : Option (List Char))
    (md : List (List Char)) (embs : List (List Int)) :
    (buildChromaStore none em (some md) (some embs) = none) ∧
    (docs = [] → buildChromaStore (some docs) em (some md) (some embs) = none) ∧
    (buildChromaStore (some docs) em none (some embs) = none) ∧
    (md.length ≠ docs.length →
      buildChromaStore (some docs) em (some md) (some embs) = none) ∧
    (docs ≠ [] → md.length = docs.length →
      buildChromaStore (some docs) em (some md) (some embs) =
        some (StoreResult.batched
          (makeBatches (docs.zip md).length (docs.zip md) embs))) := by
  refine ⟨rfl, ?_, ?_, ?_, ?_⟩
  · intro h
    subst h
    rfl
  · rw [buildChromaStore, buildChromaBody]
    by_cases h : docs = []
    · rw [if_pos h]
    · rw [if_neg h]
  · intro h
    rw [buildChromaStore, buildChromaBody]
    by_cases hd : docs = []
    · rw [if_pos hd]
    · rw [if_neg hd, if_pos h]
  · intro hd hmd
    rw [buildChromaStore, buildChromaBody, if_neg hd,
      if_neg (by omega)]

/-- C6 witness: each branch at a concrete input. -/
theorem claim_C6_validation_witness :
    buildChromaStore (some [['d']]) none (some []) (some []) = none ∧
    buildChromaStore (some [['d']]) none (some [['x']]) (some [[3]]) =
      some (StoreResult.batched
        (makeBatches ([['d']].zip [['x']]).length ([['d']].zip [['x']]) [[3]])) :=
  ⟨(claim_C6_validation [['d']] none [] [[3]]).2.2.2.1 (by decide),
    (claim_C6_validation [['d']] none [['x']] [[3]]).2.2.2.2
      (by decide) (by decide)⟩


/-! ## AnswerGenerator.evaluate_answer (C9)

From src/src/rag/answer_generator.py: the whole body is a `try` whose
`except` returns a fixed fallback dict.  On a response, the text between
the first `"{"` (`str.find`) and the last `"}"` (`str.rfind`, plus one)
is cut out with Python slicing and handed to `json.loads`; `remote =
none` models a transport failure (`requests.post` / `raise_for_status`
raising), `some text` the extracted response text. -/

/-- `str.find` for a single character: first index or `-1`. -/
def pyFindAux (c : Char) : List Char → Nat → Int
  | [], _ => -1
  | d :: rest, i => if d = c then (i : Int) else pyFindAux c rest (i + 1)

/-- `str.find(c)`. -/
def pyFind (l : List Char) (c : Char) : Int := pyFindAux c l 0

/-- `str.rfind(c)`: last index or `-1`. -/
def pyRfind (l : List Char) (c : Char) : Int :=
  let r := pyFindAux c l.reverse 0
  if r < 0 then -1 else (l.length : Int) - 1 - r

/-- Normalize a Python slice bound. -/
def normIdx (len : Nat) (i : Int) : Nat :=
  if i < 0 then (max ((len : Int) + i) 0).toNat else min i.toNat len

/-- Python `l[a:b]`. -/
def pySlice (l : List Char) (a b : Int) : List Char :=
  (l.take (normIdx l.length b)).drop (normIdx l.length a)

/-- `raw_text[raw_text.find("{") : raw_text.rfind("}") + 1]`. -/
def extractJsonText (rawText : List Char) : List Char :=
  pySlice rawText (pyFind rawText '\x7b') (pyRfind rawText '\x7d' + 1)

/-- JSON values as `json.loads` produces them (numbers kept as their
lexeme, which is all the pipeline ever needs). -/
inductive JsonVal where
  | jnull
  | jbool (b : Bool)
  | jnum (raw : List Char)
  | jstr (s : List Char)
  | jarr (elems : List JsonVal)
  | jobj (fields : List (List Char × JsonVal))

/-- JSON insignificant whitespace. -/
def jsonSkipWs (l : List Char) : List Char :=
  l.dropWhile (fun c => c = ' ' || c = '\t' || c = '\n' || c = '\r')

/-- One hex digit. -/
def hexVal (c : Char) : Option Nat :=
  if '0' ≤ c ∧ c ≤ '9' then some (c.toNat - 48)
  else if 'a' ≤ c ∧ c ≤ 'f' then some (c.toNat - 87)
  else if 'A' ≤ c ∧ c ≤ 'F' then some (c.toNat - 55)
  else none

/-- Parse the remainder of a JSON string (input begins after the opening
quote); returns content and what follows the closing quote. -/
def parseJStr : Nat → List Char → Option (List Char × List Char)
  | 0, _ => none
  | _ + 1, [] => none
  | fuel + 1, c :: rest =>
    if c = '"' then some ([], rest)
    else if c = '\\' then
      match rest with
      | [] => none
      | e :: rest2 =>
        if e = 'n' then
          match parseJStr fuel rest2 with
          | some (s, r) => some ('\n' :: s, r)
          | none => none
        else if e = 't' then
          match parseJStr fuel rest2 with
          | some (s, r) => some ('\t' :: s, r)
          | none => none
        else if e = 'r' then
          match parseJStr fuel rest2 with
          | some (s, r) => some ('\r' :: s, r)
          | none => none
        else if e = 'b' then
          match parseJStr fuel rest2 with
          | some (s, r) => some ('\x08' :: s, r)
          | none => none
        else if e = 'f' then
          match parseJStr fuel rest2 with
          | some (s, r) => some ('\x0c' :: s, r)
          | none => none
        else if e = '/' || e = '"' || e = '\\' then
          match parseJStr fuel rest2 with
          | some (s, r) => some (e :: s, r)
          | none => none
        else if e = 'u' then
          match rest2 with
          | h1 :: h2 :: h3 :: h4 :: rest3 =>
            match hexVal h1, hexVal h2, hexVal h3, hexVal h4 with
            | some a, some b, some c2, some d =>
              match parseJStr fuel rest3 with
              | some (s, r) =>
                some (Char.ofNat (((a * 16 + b) * 16 + c2) * 16 + d) :: s, r)
              | none => none
            | _, _, _, _ => none
          | _ => none
        else none
    else if c.toNat < 32 then none
    else
      match parseJStr fuel rest with
      | some (s, r) => some (c :: s, r)
      | none => none

/-- Is `c` an ASCII digit? -/
def isDigitC (c : Char) : Bool := '0' ≤ c && c ≤ '9'

/-- Lex a JSON number (the lexeme and the rest), per the RFC grammar
`json.loads` uses. -/
def parseJNum (l : List Char) : Option (List Char × List Char) :=
  let (neg, l1) : List Char × List Char :=
    match l with
    | '-' :: t => (['-'], t)
    | _ => ([], l)
  match l1 with
  | [] => none
  | c :: t =>
    if c = '0' then
      let (ip, r1) : List Char × List Char := (['0'], t)
      parseFracExp neg ip r1
    else if isDigitC c then
      parseFracExp neg (c :: t.takeWhile isDigitC) (t.dropWhile isDigitC)
    else none
where
  parseFracExp (neg ip : List Char) (r1 : List Char) :
      Option (List Char × List Char) :=
    let (fp, r2) : List Char × List Char :=
      match r1 with
      | '.' :: t2 =>
        if (t2.takeWhile isDigitC) = [] then ([], r1)
        else ('.' :: t2.takeWhile isDigitC, t2.dropWhile isDigitC)
      | _ => ([], r1)
    if fp.isEmpty && (match r1 with | '.' :: _ => true | _ => false) then none
    else
      let (ep, r3) : List Char × List Char :=
        match r2 with
        | e :: sgn :: t3 =>
          if (e = 'e' || e = 'E') && (sgn = '+' || sgn = '-') &&
              (t3.takeWhile isDigitC) ≠ [] then
            (e :: sgn :: t3.takeWhile isDigitC, t3.dropWhile isDigitC)
          else if (e = 'e' || e = 'E') && isDigitC sgn then
            (e :: sgn :: t3.takeWhile isDigitC, t3.dropWhile isDigitC)
          else ([], r2)
        | _ => ([], r2)
      if ep.isEmpty && (match r2 with
          | e :: _ => e = 'e' || e = 'E'
          | _ => false) then none
      else some (neg ++ ip ++ fp ++ ep, r3)

/-- What a recursive-descent step may return. -/
inductive JRes where
  | rv (v : JsonVal)
  | ra (a : List JsonVal)
  | rf (f : List (List Char × JsonVal))

/-- Parser modes: a value, an array body (at start / after a comma), an
object body (at start / after a comma). -/
inductive JMode where
  | val
  | arrStart
  | arrMore
  | objStart
  | objMore

/-- Fueled recursive-descent JSON parser (strict, like `json.loads`:
no trailing commas, complete values only). -/
def parseJ : Nat → JMode → List Char → Option (JRes × List Char)
  | 0, _, _ => none
  | fuel + 1, JMode.val, l =>
    match jsonSkipWs l with
    | [] => none
    | c :: rest =>
      if c = '\x7b' then
        match parseJ fuel JMode.objStart rest with
        | some (JRes.rf fs, r) => some (JRes.rv (JsonVal.jobj fs), r)
        | _ => none
      else if c = '[' then
        match parseJ fuel JMode.arrStart rest with
        | some (JRes.ra els, r) => some (JRes.rv (JsonVal.jarr els), r)
        | _ => none
      else if c = '"' then
        match parseJStr (rest.length + 1) rest with
        | some (str, r) => some (JRes.rv (JsonVal.jstr str), r)
        | none => none
      else if leadsWith "true".data (c :: rest) then
        some (JRes.rv (JsonVal.jbool true), (c :: rest).drop 4)
      else if leadsWith "false".data (c :: rest) then
        some (JRes.rv (JsonVal.jbool false), (c :: rest).drop 5)
      else if leadsWith "null".data (c :: rest) then
        some (JRes.rv JsonVal.jnull, (c :: rest).drop 4)
      else
        match parseJNum (c :: rest) with
        | some (raw, r) => some (JRes.rv (JsonVal.jnum raw), r)
        | none => none
  | fuel + 1, JMode.arrStart, l =>
    match jsonSkipWs l with
    | ']' :: r => some (JRes.ra [], r)
    | l2 => parseJ fuel JMode.arrMore l2
  | fuel + 1, JMode.arrMore, l =>
    match parseJ fuel JMode.val l with
    | some (JRes.rv v, r) =>
      match jsonSkipWs r with
      | ',' :: r2 =>
        match parseJ fuel JMode.arrMore r2 with
        | some (JRes.ra els, r3) => some (JRes.ra (v :: els), r3)
        | _ => none
      | ']' :: r2 => some (JRes.ra [v], r2)
      | _ => none
    | _ => none
  | fuel + 1, JMode.objStart, l =>
    match jsonSkipWs l with
    | '\x7d' :: r => some (JRes.rf [], r)
    | l2 => parseJ fuel JMode.objMore l2
  | fuel + 1, JMode.objMore, l =>
    match jsonSkipWs l with
    | '"' :: rest =>
      match parseJStr (rest.length + 1) rest with
      | some (key, r) =>
        match jsonSkipWs r with
        | ':' :: r2 =>
          match parseJ fuel JMode.val r2 with
          | some (JRes.rv v, r3) =>
            match jsonSkipWs r3 with
            | ',' :: r4 =>
              match parseJ fuel JMode.objMore r4 with
              | some (JRes.rf fs, r5) => some (JRes.rf ((key, v) :: fs), r5)
              | _ => none
            | '\x7d' :: r4 => some (JRes.rf [(key, v)], r4)
            | _ => none
          | _ => none
        | _ => none
      | none => none
    | _ => none

/-- `json.loads`: one complete value, nothing but whitespace after it. -/
def jsonLoads (l : List Char) : Option JsonVal :=
  match parseJ (3 * l.length + 16) JMode.val l with
  | some (JRes.rv v, rest) => if jsonSkipWs rest = [] then some v else none
  | _ => none

/-- Association lookup in a parsed object. -/
def jsonField : JsonVal → List Char → Option JsonVal
  | JsonVal.jobj fs, key => assocFind fs key
  | _, _ => none
where
  assocFind : List (List Char × JsonVal) → List Char → Option JsonVal
    | [], _ => none
    | (k, v) :: rest, key => if k = key then some v else assocFind rest key

/-- The fixed fallback judgment returned by the `except` clause. -/
def evalFallback : JsonVal :=
  JsonVal.jobj [("Relevance".data, JsonVal.jstr "❌".data),
    ("Accuracy".data, JsonVal.jstr "❌".data),
    ("Completeness".data, JsonVal.jstr "❌".data),
    ("Quality Score".data, JsonVal.jstr "1".data),
    ("Comments".data,
      JsonVal.jstr "No valid evaluation returned. Check prompt format or API limits.".data)]

/-- The `try` body of `evaluate_answer`. -/
def evalBody (question context genAnswer : List Char)
    (remote : Option (List Char)) : Except Unit JsonVal :=
  if question = [] ∨ context = [] ∨ genAnswer = [] then Except.error ()
  else
    match remote with
    | none => Except.error ()
    | some resp =>
      let rawText := pyStrip resp
      if rawText = [] then Except.error ()
      else
        match jsonLoads (extractJsonText rawText) with
        | some v => Except.ok v
        | none => Except.error ()

/-- `evaluate_answer`: the body, with every failure resolved to the
fixed fallback. -/
def evaluateAnswer (question context genAnswer : List Char)
    (remote : Option (List Char)) : JsonVal :=
  match evalBody question context genAnswer remote with
  | Except.ok v => v
  | Except.error _ => evalFallback

/-- C9: for every remote outcome — transport failure, empty response,
non-JSON free text, or a response with an embedded JSON object —
`evaluate_answer` returns either the value `json.loads` extracts from
between the first `{` and the last `}` of the (stripped) response text,
or the fixed fallback judgment whose `"Quality Score"` is `"1"`; it
never propagates an error. -/
theorem claim_C9_eval_total (q c a : List Char) (remote : Option (List Char)) :
    (∃ v, jsonLoads (extractJsonText (pyStrip (remote.getD []))) = some v ∧
      evaluateAnswer q c a remote = v) ∨
    (evaluateAnswer q c a remote = evalFallback ∧
      jsonField evalFallback "Quality Score".data =
        some (JsonVal.jstr "1".data)) := by
  rw [evaluateAnswer, evalBody.eq_def]
  by_cases h1 : q = [] ∨ c = [] ∨ a = []
  · rw [if_pos h1]
    right
    exact ⟨rfl, rfl⟩
  · rw [if_neg h1]
    cases remote with
    | none =>
      right
      exact ⟨rfl, rfl⟩
    | some resp =>
      dsimp only
      by_cases h2 : pyStrip resp = []
      · rw [if_pos h2]
        right
        exact ⟨rfl, rfl⟩
      · rw [if_neg h2]
        cases hj : jsonLoads (extractJsonText (pyStrip resp)) with
        | some v =>
          left
          exact ⟨v, by simpa using hj, rfl⟩
        | none =>
          right
          exact ⟨rfl, rfl⟩




/-! ## TextChunker / RecursiveCharacterTextSplitter (C2)

`TextChunker` (src/src/chunking/text_chunker.py) delegates the actual
chunking to LangChain\'s `RecursiveCharacterTextSplitter` with its default
configuration: separators `["\n\n", "\n", " ", ""]`, `keep_separator=True`
(a separator stays attached to the front of the following split),
`strip_whitespace=True` (each emitted chunk is `str.strip`ped), length =
`len`.  The splitter picks the first separator that is `""` or occurs in
the text, splits on it, merges short splits into windows of at most
`chunk_size` with `chunk_overlap` carried over, and recursively re-splits
oversized splits with the remaining separators. -/

/-- Split on a literal separator (leftmost, non-overlapping); `acc` holds
the current piece reversed, fuel bounds the scan. -/
def splitOnSepAux (sep : List Char) : Nat → List Char → List Char → List (List Char)
  | 0, acc, rest => [acc.reverse ++ rest]
  | fuel + 1, acc, rest =>
    if leadsWith sep rest ∧ sep ≠ [] then
      acc.reverse :: splitOnSepAux sep fuel [] (rest.drop sep.length)
    else
      match rest with
      | [] => [acc.reverse]
      | c :: t => splitOnSepAux sep fuel (c :: acc) t

/-- `re.split` on a literal separator, pieces only. -/
def splitOnSep (sep text : List Char) : List (List Char) :=
  splitOnSepAux sep (text.length + 1) [] text

/-- `_split_text_with_regex(text, sep, keep_separator=True)`: separator
kept at the start of the following piece, empty pieces dropped; the `""`
separator yields the list of characters. -/
def splitKeep (sep text : List Char) : List (List Char) :=
  if sep = [] then (text.map (fun c => [c])).filter (· ≠ [])
  else
    match splitOnSep sep text with
    | [] => []
    | p :: ps => (p :: ps.map (fun q => sep ++ q)).filter (· ≠ [])

/-- The separator-selection loop of `_split_text`: first separator that
is `""` (empty string short-circuits with no remaining separators) or
occurs in the text (remaining separators kept for recursion); falling
through leaves the last separator and no remaining ones. -/
def chooseSep : List (List Char) → List Char → List Char × List (List Char)
  | [], _ => ([], [])
  | s :: rest, text =>
    if s = [] then ([], [])
    else if hasSub s text then (s, rest)
    else
      match rest with
      | [] => (s, [])
      | _ :: _ => chooseSep rest text

/-- `_join_docs` with the merge separator `""` (`keep_separator=True`)
and `strip_whitespace=True`: `None` when the stripped join is empty. -/
def joinDocs (docs : List (List Char)) : Option (List Char) :=
  let text := pyStrip docs.flatten
  if text = [] then none else some text

/-- The popping `while` loop of `_merge_splits` (separator length 0):
keep dropping the front of `current` while the running total exceeds the
overlap, or the next split still does not fit and the total is positive.
The code only reaches this loop with `total` equal to the weight of
`current`, so the guard is false whenever `current` is empty. -/
def popLoop (S O newLen : Nat) : List (List Char) → Nat → List (List Char) × Nat
  | [], total => ([], total)
  | d :: rest, total =>
    if total > O ∨ (total + newLen > S ∧ total > 0) then
      popLoop S O newLen rest (total - d.length)
    else (d :: rest, total)

/-- One iteration of the `for d in splits` loop of `_merge_splits`
(state: emitted docs, current window, running total; separator `""`). -/
def mergeStep (S O : Nat) (st : List (List Char) × List (List Char) × Nat)
    (d : List Char) : List (List Char) × List (List Char) × Nat :=
  let docs := st.1
  let current := st.2.1
  let total := st.2.2
  let len := d.length
  let next : List (List Char) × List (List Char) × Nat :=
    if total + len > S then
      if current ≠ [] then
        let docs2 := match joinDocs current with
          | some doc => docs ++ [doc]
          | none => docs
        let pop := popLoop S O len current total
        (docs2, pop.1, pop.2)
      else (docs, current, total)
    else (docs, current, total)
  (next.1, next.2.1 ++ [d], next.2.2 + len)

/-- `_merge_splits` with merge separator `""`. -/
def mergeSplits (S O : Nat) (splits : List (List Char)) : List (List Char) :=
  let fin := splits.foldl (mergeStep S O) ([], [], 0)
  match joinDocs fin.2.1 with
  | some doc => fin.1 ++ [doc]
  | none => fin.1

/-- One iteration of the `for s in splits` loop of `_split_text`: short
splits accumulate, an oversized split first flushes the accumulated run
through `_merge_splits` and is then either emitted whole (no separators
left) or recursively re-split. -/
def splitStep (S O : Nat) (recur : List Char → List (List Char))
    (newSeps : List (List Char)) (st : List (List Char) × List (List Char))
    (s : List Char) : List (List Char) × List (List Char) :=
  let final := st.1
  let good := st.2
  if s.length < S then (final, good ++ [s])
  else
    let final2 := if good = [] then final else final ++ mergeSplits S O good
    let final3 := if newSeps = [] then final2 ++ [s] else final2 ++ recur s
    (final3, [])

/-- `_split_text`, fueled by the recursion depth over separator lists. -/
def splitTextAux (S O : Nat) : Nat → List (List Char) → List Char → List (List Char)
  | 0, _, _ => []
  | fuel + 1, seps, text =>
    let pick := chooseSep seps text
    let splits := splitKeep pick.1 text
    let fin := splits.foldl
      (splitStep S O (splitTextAux S O fuel pick.2) pick.2) ([], [])
    if fin.2 = [] then fin.1 else fin.1 ++ mergeSplits S O fin.2

/-- The default separator list of `RecursiveCharacterTextSplitter`. -/
def defaultSeparators : List (List Char) :=
  ["\n\n".data, "\n".data, " ".data, []]

/-- `RecursiveCharacterTextSplitter(chunk_size=S, chunk_overlap=O).split_text`.
The fuel covers the maximal separator-recursion depth. -/
def splitText (S O : Nat) (text : List Char) : List (List Char) :=
  splitTextAux S O (defaultSeparators.length + 1) defaultSeparators text

/-- `TextChunker.chunk_dataframe` on the narrative column: each row\'s
text is split and every chunk carries its 0-based `chunk_index`. -/
def chunkDataframe (S O : Nat) (rows : List (List Char)) :
    List (List Char × Nat) :=
  (rows.map (fun text => (splitText S O text).enum.map
    (fun p => (p.2, p.1)))).flatten




/-- Reassemble chunks discarding the `O`-character overlaps: the first
chunk whole, every later chunk without its first `O` characters. -/
def reconChunks (O : Nat) : List (List Char) → List Char
  | [] => []
  | c :: rest => c ++ (rest.map (fun d => d.drop O)).flatten

/-- C2 counterexample: (i) the whitespace-only text `" "` has length
1 ≤ 5 yet yields **no** chunk (the splitter strips each merged chunk and
drops empty ones); (ii) for `"a b"` with `S = 2, O = 0` the chunks are
`["a", "b"]` — the space at the cut is dropped, so discarding overlaps
and concatenating gives `"ab" ≠ "a b"`; (iii) for the whitespace-free
`"a"` with `S = 3, O = 1` one chunk is produced although
`ceil((len-O)/(S-O)) = 0`. -/
theorem claim_C2_counterexample :
    splitText 5 0 " ".data = [] ∧
    splitText 2 0 "a b".data = ["a".data, "b".data] ∧
    reconChunks 0 ["a".data, "b".data] ≠ "a b".data ∧
    splitText 3 1 "a".data = ["a".data] ∧
    (splitText 3 1 "a".data).length ≠ ("a".data.length - 1 + (3 - 1) - 1) / (3 - 1) :=
  ⟨rfl, rfl, by decide, rfl, by decide⟩


/-- The sliding-window reading of the merge loop: windows of `S`
characters advancing by `S - O`. -/
def slidingChunks (S O : Nat) (T : List Char) : List (List Char) :=
  if T.length ≤ S ∨ S - O = 0 then [T]
  else T.take S :: slidingChunks S O (T.drop (S - O))
termination_by T.length
decreasing_by
  rename_i h
  push_neg at h
  simp only [List.length_drop]
  omega


theorem noWs_headIsWs (l : List Char) (h : ∀ c ∈ l, pyWs c = false) :
    headIsWs l = false := by
  cases l with
  | nil => rfl
  | cons c rest => exact h c (List.mem_cons_self c rest)

theorem noWs_pyStrip (l : List Char) (h : ∀ c ∈ l, pyWs c = false) :
    pyStrip l = l := by
  refine strip_eq_self l (noWs_headIsWs l h) (noWs_headIsWs l.reverse ?_)
  intro c hc
  exact h c (List.mem_reverse.mp hc)

theorem hasSub_head_mem (c : Char) (cs hay : List Char)
    (h : hasSub (c :: cs) hay = true) : c ∈ hay := by
  induction hay with
  | nil => simp [hasSub, leadsWith] at h
  | cons d t ih =>
    rw [hasSub, Bool.or_eq_true] at h
    rcases h with h | h
    · rw [leadsWith, Bool.and_eq_true, beq_iff_eq] at h
      rw [h.1]
      exact List.mem_cons_self d t
    · exact List.mem_cons_of_mem d (ih h)

theorem chooseSep_noWs (T : List Char) (h : ∀ c ∈ T, pyWs c = false) :
    chooseSep defaultSeparators T = ([], []) := by
  have hnl : ∀ cs, hasSub ('\n' :: cs) T = false := by
    intro cs
    cases hh : hasSub ('\n' :: cs) T with
    | false => rfl
    | true => exact absurd (h _ (hasSub_head_mem _ _ _ hh)) (by decide)
  have hsp : hasSub (' ' :: []) T = false := by
    cases hh : hasSub (' ' :: []) T with
    | false => rfl
    | true => exact absurd (h _ (hasSub_head_mem _ _ _ hh)) (by decide)
  show chooseSep ["\n\n".data, "\n".data, " ".data, []] T = ([], [])
  rw [chooseSep]
  rw [if_neg (by decide), if_neg (by rw [show ("\n\n".data : List Char) = '\n' :: ['\n'] from rfl, hnl]; exact Bool.false_ne_true)]
  rw [chooseSep]
  rw [if_neg (by decide), if_neg (by rw [show ("\n".data : List Char) = '\n' :: [] from rfl, hnl]; exact Bool.false_ne_true)]
  rw [chooseSep]
  rw [if_neg (by decide), if_neg (by rw [show (" ".data : List Char) = ' ' :: [] from rfl, hsp]; exact Bool.false_ne_true)]
  rw [chooseSep]
  rw [if_pos rfl]

theorem splitKeep_nil_sep (T : List Char) :
    splitKeep [] T = T.map (fun c => [c]) := by
  rw [splitKeep, if_pos rfl]
  apply List.filter_eq_self.mpr
  intro a ha
  obtain ⟨c, _, hc⟩ := List.mem_map.mp ha
  subst hc
  simp

theorem foldl_splitStep_good (S O : Nat) (r : List Char → List (List Char))
    (ns : List (List Char)) (splits : List (List Char))
    (h : ∀ s ∈ splits, s.length < S) :
    ∀ st, splits.foldl (splitStep S O r ns) st = (st.1, st.2 ++ splits) := by
  induction splits with
  | nil => intro st; simp
  | cons s rest ih =>
    intro st
    rw [List.foldl_cons]
    have hs : s.length < S := h s (List.mem_cons_self s rest)
    rw [show splitStep S O r ns st s = (st.1, st.2 ++ [s]) by
      rw [splitStep, if_pos hs]]
    rw [ih (fun x hx => h x (List.mem_cons_of_mem s hx)) _]
    simp

theorem foldl_splitStep_oversized (S O : Nat) (r : List Char → List (List Char))
    (splits : List (List Char)) (h : ∀ s ∈ splits, ¬ s.length < S) :
    ∀ final, splits.foldl (splitStep S O r []) (final, []) =
      (final ++ splits, []) := by
  induction splits with
  | nil => intro final; simp
  | cons s rest ih =>
    intro final
    rw [List.foldl_cons]
    have hs : ¬ s.length < S := h s (List.mem_cons_self s rest)
    rw [show splitStep S O r [] (final, []) s = (final ++ [s], []) by
      rw [splitStep, if_neg hs]
      simp]
    rw [ih (fun x hx => h x (List.mem_cons_of_mem s hx)) _]
    simp


theorem flatten_map_sing (l : List Char) :
    (l.map (fun c => [c])).flatten = l := by
  induction l with
  | nil => rfl
  | cons c rest ih => simp [ih]

theorem joinDocs_sing (cur : List Char) (hws : ∀ c ∈ cur, pyWs c = false)
    (hne : cur ≠ []) : joinDocs (cur.map (fun c => [c])) = some cur := by
  rw [joinDocs]
  simp only [flatten_map_sing, noWs_pyStrip cur hws]
  rw [if_neg hne]

theorem popLoop_sing (S O newLen : Nat) (hO : O + newLen ≤ S) :
    ∀ (cur : List Char),
      popLoop S O newLen (cur.map (fun c => [c])) cur.length =
        ((cur.drop (cur.length - O)).map (fun c => [c]), min cur.length O) := by
  intro cur
  induction cur with
  | nil => simp [popLoop]
  | cons c rest ih =>
    rw [List.map_cons, popLoop]
    by_cases hn : rest.length + 1 > O
    · rw [if_pos (Or.inl (by simp only [List.length_cons]; omega))]
      rw [show (c :: rest).length - [c].length = rest.length by simp]
      rw [ih]
      simp only [Prod.mk.injEq]
      constructor
      · rw [show (c :: rest).length - O = (rest.length - O) + 1 by
          simp only [List.length_cons]; omega]
        rw [List.drop_succ_cons]
      · simp only [List.length_cons]
        omega
    · rw [if_neg (by
        simp only [List.length_cons]
        push_neg
        omega)]
      simp only [Prod.mk.injEq]
      constructor
      · rw [show (c :: rest).length - O = 0 by simp only [List.length_cons]; omega]
        rfl
      · simp only [List.length_cons]
        omega


/-- The final join step of `_merge_splits`. -/
def mergeFinish (_S _O : Nat) (st : List (List Char) × List (List Char) × Nat) :
    List (List Char) :=
  match joinDocs st.2.1 with
  | some doc => st.1 ++ [doc]
  | none => st.1

theorem mergeSplits_eq_finish (S O : Nat) (splits : List (List Char)) :
    mergeSplits S O splits =
      mergeFinish S O (splits.foldl (mergeStep S O) ([], [], 0)) := rfl

theorem merge_fold_bridge (S O : Nat) (hS : 2 ≤ S) (hO : O < S) :
    ∀ (ts cur : List Char) (docs : List (List Char)),
      cur ≠ [] → cur.length ≤ S →
      (∀ c ∈ cur, pyWs c = false) → (∀ c ∈ ts, pyWs c = false) →
      mergeFinish S O ((ts.map (fun c => [c])).foldl (mergeStep S O)
        (docs, cur.map (fun c => [c]), cur.length)) =
      docs ++ slidingChunks S O (cur ++ ts) := by
  intro ts
  induction ts with
  | nil =>
    intro cur docs hne hlen hwcur _
    simp only [List.map_nil, List.foldl_nil]
    rw [mergeFinish]
    simp only [joinDocs_sing cur hwcur hne]
    rw [List.append_nil, slidingChunks, if_pos (Or.inl hlen)]
  | cons t ts2 ih =>
    intro cur docs hne hlen hwcur hwts
    have hwt : pyWs t = false := hwts t (List.mem_cons_self t ts2)
    have hwts2 : ∀ c ∈ ts2, pyWs c = false :=
      fun c hc => hwts c (List.mem_cons_of_mem t hc)
    simp only [List.map_cons, List.foldl_cons]
    by_cases hfit : cur.length + 1 ≤ S
    · have hstep : mergeStep S O (docs, cur.map (fun c => [c]), cur.length) [t] =
          (docs, (cur ++ [t]).map (fun c => [c]), (cur ++ [t]).length) := by
        simp only [mergeStep]
        rw [if_neg (by simp only [List.length_cons, List.length_nil]; omega)]
        simp [List.map_append]
      rw [hstep]
      rw [ih (cur ++ [t]) docs (by simp)
        (by simp only [List.length_append, List.length_cons, List.length_nil]; omega)
        (by
          intro x hx
          rcases List.mem_append.mp hx with h | h
          · exact hwcur x h
          · rw [List.mem_singleton.mp h]
            exact hwt)
        hwts2]
      rw [show (cur ++ [t]) ++ ts2 = cur ++ t :: ts2 by simp]
    · have hnS : cur.length = S := by omega
      have hstep : mergeStep S O (docs, cur.map (fun c => [c]), cur.length) [t] =
          (docs ++ [cur], (cur.drop (S - O) ++ [t]).map (fun c => [c]),
            (cur.drop (S - O) ++ [t]).length) := by
        simp only [mergeStep]
        rw [if_pos (by simp only [List.length_cons, List.length_nil]; omega)]
        rw [if_pos (by
          simp only [ne_eq, List.map_eq_nil_iff]
          exact hne)]
        rw [joinDocs_sing cur hwcur hne]
        rw [show [t].length = 1 from rfl]
        rw [popLoop_sing S O 1 (by omega) cur]
        simp only [List.map_append, List.length_append, List.length_drop,
          List.map_cons, List.map_nil, List.length_cons, List.length_nil, hnS]
        rw [Nat.min_eq_right (le_of_lt hO)]
        simp only [Prod.mk.injEq]
        refine ⟨trivial, trivial, by omega⟩
      rw [hstep]
      rw [ih (cur.drop (S - O) ++ [t]) (docs ++ [cur]) (by simp)
        (by
          simp only [List.length_append, List.length_drop, List.length_cons,
            List.length_nil, hnS]
          omega)
        (by
          intro x hx
          rcases List.mem_append.mp hx with h | h
          · exact hwcur x (List.mem_of_mem_drop h)
          · rw [List.mem_singleton.mp h]
            exact hwt)
        hwts2]
      rw [List.append_assoc]
      congr 1
      rw [show (cur.drop (S - O) ++ [t]) ++ ts2 = cur.drop (S - O) ++ t :: ts2 by simp]
      conv_rhs => rw [slidingChunks]
      rw [if_neg (by
        push_neg
        constructor
        · simp only [List.length_append, List.length_cons, hnS]
          omega
        · omega)]
      rw [show (cur ++ t :: ts2).take S = cur by
        rw [← hnS]
        exact List.take_left cur (t :: ts2)]
      rw [show (cur ++ t :: ts2).drop (S - O) = cur.drop (S - O) ++ t :: ts2 by
        rw [List.drop_append_eq_append_drop]
        rw [show S - O - cur.length = 0 by omega]
        rfl]
      rfl


theorem slidingChunks_of_le (S O : Nat) (T : List Char) (h : T.length ≤ S) :
    slidingChunks S O T = [T] := by
  rw [slidingChunks, if_pos (Or.inl h)]

theorem map_sing_eq_sliding_one (T : List Char) (hT : T ≠ []) :
    T.map (fun c => [c]) = slidingChunks 1 0 T := by
  induction T with
  | nil => exact absurd rfl hT
  | cons c rest ih =>
    cases rest with
    | nil => rw [slidingChunks_of_le 1 0 [c] (by simp)]; rfl
    | cons d rest2 =>
      rw [slidingChunks, if_neg (by simp)]
      rw [show (c :: d :: rest2).take 1 = [c] from rfl]
      rw [show (c :: d :: rest2).drop (1 - 0) = d :: rest2 from rfl]
      rw [List.map_cons, ih (by simp)]

theorem slidingChunks_length_aux (S O : Nat) (hO : O < S) :
    ∀ (n : Nat) (T : List Char), T.length ≤ n → T ≠ [] →
      (slidingChunks S O T).length =
        max 1 ((T.length - O + (S - O) - 1) / (S - O)) := by
  intro n
  induction n with
  | zero =>
    intro T hn hT
    exact absurd (List.eq_nil_of_length_eq_zero (by omega)) hT
  | succ n ihn =>
    intro T hn hT
    have hu : 0 < S - O := by omega
    have hL : 0 < T.length := List.length_pos.mpr hT
    by_cases hc : T.length ≤ S
    · rw [slidingChunks_of_le S O T hc, List.length_singleton]
      have hq : (T.length - O + (S - O) - 1) / (S - O) ≤ 1 := by
        have hlt : (T.length - O + (S - O) - 1) / (S - O) < 2 := by
          rw [Nat.div_lt_iff_lt_mul hu]
          omega
        omega
      omega
    · push_neg at hc
      rw [slidingChunks, if_neg (by push_neg; exact ⟨by omega, by omega⟩)]
      rw [List.length_cons]
      have hdne : T.drop (S - O) ≠ [] := by
        intro h
        have := congrArg List.length h
        simp only [List.length_drop, List.length_nil] at this
        omega
      rw [ihn (T.drop (S - O)) (by simp only [List.length_drop]; omega) hdne]
      simp only [List.length_drop]
      have hge1 : 1 ≤ (T.length - (S - O) - O + (S - O) - 1) / (S - O) := by
        rw [Nat.le_div_iff_mul_le hu]
        omega
      have hsplit : T.length - O + (S - O) - 1 =
          (T.length - (S - O) - O + (S - O) - 1) + (S - O) := by omega
      rw [Nat.max_eq_right hge1, hsplit, Nat.add_div_right _ hu,
        Nat.max_eq_right (by omega)]

theorem sliding_flatten_drop (S O : Nat) (hO : O < S) :
    ∀ (n : Nat) (T : List Char), T.length ≤ n → T ≠ [] →
      ((slidingChunks S O T).map (fun d => d.drop O)).flatten = T.drop O := by
  intro n
  induction n with
  | zero =>
    intro T hn hT
    exact absurd (List.eq_nil_of_length_eq_zero (by omega)) hT
  | succ n ihn =>
    intro T hn hT
    by_cases hc : T.length ≤ S
    · rw [slidingChunks_of_le S O T hc]
      simp
    · push_neg at hc
      rw [slidingChunks, if_neg (by push_neg; exact ⟨by omega, by omega⟩)]
      have hdne : T.drop (S - O) ≠ [] := by
        intro h
        have := congrArg List.length h
        simp only [List.length_drop, List.length_nil] at this
        omega
      rw [List.map_cons, List.flatten_cons,
        ihn (T.drop (S - O)) (by simp only [List.length_drop]; omega) hdne]
      rw [List.drop_drop, show S - O + O = S by omega]
      rw [List.drop_take]
      rw [show T.drop S = (T.drop O).drop (S - O) by
        rw [List.drop_drop, show O + (S - O) = S by omega]]
      exact List.take_append_drop _ _

theorem sliding_recon (S O : Nat) (hO : O < S) (T : List Char) (_hT : T ≠ []) :
    reconChunks O (slidingChunks S O T) = T := by
  by_cases hc : T.length ≤ S
  · rw [slidingChunks_of_le S O T hc, reconChunks]
    simp
  · push_neg at hc
    rw [slidingChunks, if_neg (by push_neg; exact ⟨by omega, by omega⟩)]
    have hdne : T.drop (S - O) ≠ [] := by
      intro h
      have := congrArg List.length h
      simp only [List.length_drop, List.length_nil] at this
      omega
    rw [reconChunks]
    rw [sliding_flatten_drop S O hO (T.drop (S - O)).length _ (le_refl _) hdne]
    rw [List.drop_drop, show S - O + O = S by omega]
    exact List.take_append_drop _ _


theorem splitText_eq_sliding (S O : Nat) (hO : O < S) (T : List Char)
    (hT : T ≠ []) (hws : ∀ c ∈ T, pyWs c = false) :
    splitText S O T = slidingChunks S O T := by
  have h5 : splitText S O T = splitTextAux S O (4 + 1) defaultSeparators T := rfl
  rw [h5]
  simp only [splitTextAux, chooseSep_noWs T hws, splitKeep_nil_sep]
  by_cases hS2 : 2 ≤ S
  · have hgood : ∀ s ∈ T.map (fun c => [c]), s.length < S := by
      intro s hs
      obtain ⟨c, _, rfl⟩ := List.mem_map.mp hs
      simpa using hS2
    rw [foldl_splitStep_good S O _ _ _ hgood ([], [])]
    simp only [List.nil_append]
    rw [if_neg (by
      simp only [ne_eq, List.map_eq_nil_iff]
      exact hT)]
    obtain ⟨t0, ts, rfl⟩ : ∃ t0 ts, T = t0 :: ts := by
      cases T with
      | nil => exact absurd rfl hT
      | cons a b => exact ⟨a, b, rfl⟩
    rw [mergeSplits_eq_finish]
    simp only [List.map_cons, List.foldl_cons]
    have hstep0 : mergeStep S O ([], [], 0) [t0] =
        ([], [t0].map (fun c => [c]), [t0].length) := by
      simp only [mergeStep]
      rw [if_neg (by simp only [List.length_cons, List.length_nil]; omega)]
      simp
    rw [hstep0]
    rw [show ([t0].map (fun c => [c])) = [t0].map (fun c => [c]) from rfl]
    rw [merge_fold_bridge S O hS2 hO ts [t0] [] (by simp)
      (by simp only [List.length_cons, List.length_nil]; omega)
      (by
        intro c hc
        rw [List.mem_singleton.mp hc]
        exact hws t0 (List.mem_cons_self _ _))
      (fun c hc => hws c (List.mem_cons_of_mem _ hc))]
    simp
  · have hS1 : S = 1 := by omega
    have hO0 : O = 0 := by omega
    subst hS1
    subst hO0
    have hbad : ∀ s ∈ T.map (fun c => [c]), ¬ s.length < 1 := by
      intro s hs
      obtain ⟨c, _, rfl⟩ := List.mem_map.mp hs
      simp
    rw [foldl_splitStep_oversized 1 0 _ _ hbad []]
    simp only [List.nil_append]
    rw [if_pos trivial]
    exact map_sing_eq_sliding_one T hT

/-- C2 (amended): the claim\'s coverage properties hold for the splitter
only on whitespace-free text.  For every non-empty `T` containing no
(Python) whitespace and every `chunk_size S`, `overlap O` with `O < S`:
the number of chunks is `max 1 (⌈(len(T)-O)/(S-O)⌉)` (the claim\'s formula
whenever `len(T) > O`, and 1 — not the formula\'s 0 — when `len(T) ≤ O`);
a text with `len(T) ≤ S` yields exactly the one chunk `[T]`; and
discarding the `O`-character overlaps and concatenating reconstructs `T`
exactly.  On text containing whitespace the splitter cuts at whitespace
and strips it, so the count formula and exact reconstruction fail (see
the counterexample). -/
theorem claim_C2_chunk_coverage (S O : Nat) (T : List Char) (hO : O < S)
    (hT : T ≠ []) (hws : ∀ c ∈ T, pyWs c = false) :
    (splitText S O T).length = max 1 ((T.length - O + (S - O) - 1) / (S - O)) ∧
    (T.length ≤ S → splitText S O T = [T]) ∧
    reconChunks O (splitText S O T) = T := by
  rw [splitText_eq_sliding S O hO T hT hws]
  exact ⟨slidingChunks_length_aux S O hO T.length T (le_refl _) hT,
    fun h => slidingChunks_of_le S O T h,
    sliding_recon S O hO T hT⟩

/-- C2 witness: the amended coverage at `T = "abcde"`, `S = 2`, `O = 0`. -/
theorem claim_C2_chunk_coverage_witness :
    (splitText 2 0 "abcde".data).length =
      max 1 (("abcde".data.length - 0 + (2 - 0) - 1) / (2 - 0)) ∧
    ("abcde".data.length ≤ 2 → splitText 2 0 "abcde".data = ["abcde".data]) ∧
    reconChunks 0 (splitText 2 0 "abcde".data) = "abcde".data :=
  claim_C2_chunk_coverage 2 0 "abcde".data (by decide) (by decide) (by decide)

end ComplaintRag
